import Mathlib

/-!
Shallow embedding of the DataFlow descriptor layer of `dffml/df/types.py`:
`Definition`, `Operation`, `Input`, `InputFlow`, `DataFlow`, their `export`
and `_fromdict` serialisation, `DataFlow.auto` auto-wiring and
`DataFlow._resolve_operations`.

Modelling conventions:
- Python `dict`s become association lists `List (String × α)` with Python
  dict update semantics (`dictSet`: replace in place, else append) and
  first-match lookup (`dictFind`).  Python dict keys are unique, which on
  association lists becomes an explicit `Nodup` hypothesis where needed.
- `Any`-typed runtime values become the flat inductive `Value`.
- `uuid.uuid4()` becomes an explicit supply of fresh uid strings passed to
  the deserialiser; uuid collisions with caller-chosen uids are ignored
  (probability ~0 in the source).
- Exceptions become `Except PyErr`.
-/

namespace DFFML

/-- Runtime values carried by `Input.value`, configs and spec defaults
(`Any` in the source).  The claims never inspect value structure, so a flat
inductive suffices. -/
inductive Value where
  | str : String → Value
  | int : Int → Value
  | bool : Bool → Value
  | none : Value
deriving DecidableEq, Repr

/-- Python dict lookup (`d[k]` / `k in d`): first (unique) matching key. -/
def dictFind {α : Type} (m : List (String × α)) (k : String) : Option α :=
  match m with
  | [] => Option.none
  | (k', v) :: rest => if k' = k then some v else dictFind rest k

/-- Python dict update `d[k] = v`: replace the value in place when the key
exists (keeping its position), otherwise append the new entry. -/
def dictSet {α : Type} (m : List (String × α)) (k : String) (v : α) : List (String × α) :=
  match m with
  | [] => [(k, v)]
  | (k', v') :: rest => if k' = k then (k, v) :: rest else (k', v') :: dictSet rest k v

/-- The structural content of a `Definition.spec` NamedTuple class:
its qualified name, field types and field defaults, exactly the three
fields `Definition.export` serialises.  Class identity is abstracted. -/
structure Spec where
  name : String
  types : List (String × String)
  defaults : List (String × Value)
deriving DecidableEq, Repr

/-- `Definition` (types.py): an immutable named typed port. -/
structure Definition where
  name : String
  primitive : String
  lock : Bool := false
  spec : Option Spec := Option.none
deriving DecidableEq, Repr

/-- Exported (dict) form of a `Definition`.  `Definition.export` deletes the
`"lock"` key when `lock` is falsy and the `"spec"` key when `spec` is
falsy, so those fields are `Option`s here: `none` means the key is absent. -/
structure DefDict where
  name : String
  primitive : String
  lock : Option Bool
  spec : Option Spec
deriving DecidableEq, Repr

/-- `Definition.export`. -/
def Definition.export (d : Definition) : DefDict :=
  { name := d.name
    primitive := d.primitive
    lock := if d.lock then some true else Option.none
    spec := d.spec }

/-- `Definition._fromdict`: absent `lock` falls back to the NamedTuple
default `False`; a present `spec` dict is rebuilt into a spec (the
reflective class reconstruction is abstracted to its structural content). -/
def Definition.fromdict (dd : DefDict) : Definition :=
  { name := dd.name
    primitive := dd.primitive
    lock := dd.lock.getD false
    spec := dd.spec }

inductive Stage where
  | PROCESSING
  | CLEANUP
  | OUTPUT
deriving DecidableEq, Repr

/-- `Stage.value` (the `Enum` payload strings). -/
def Stage.value : Stage → String
  | .PROCESSING => "processing"
  | .CLEANUP => "cleanup"
  | .OUTPUT => "output"

/-- A member of `Operation.conditions`.  User-built operations hold real
`Definition`s; `DataFlow._fromdict` leaves conditions untouched, so after
deserialisation they are bare name strings (unlinked form) or raw
definition dicts (linked form, substituted by `_resolve_operations`). -/
inductive CondEntry where
  | defn : Definition → CondEntry
  | name : String → CondEntry
  | dict : DefDict → CondEntry
deriving DecidableEq, Repr

/-- The `.name` attribute access `Operation.export` performs on each
condition entry (on non-`Definition` entries the source would fault; such
entries only arise from deserialised flows). -/
def CondEntry.defName : CondEntry → String
  | .defn d => d.name
  | .name s => s
  | .dict dd => dd.name

/-- `Operation` (types.py): descriptor of one operation. -/
structure Operation where
  name : String
  inputs : List (String × Definition)
  outputs : List (String × Definition)
  stage : Stage := .PROCESSING
  conditions : List CondEntry := []
  expand : List String := []
  instance_name : Option String := Option.none
deriving DecidableEq, Repr

/-- `Input` (types.py): a concrete value typed by a `Definition`, with a
parents list and a uid.  Parent links are modelled structurally (the
source builds them as a DAG; shared objects appear as equal subtrees). -/
inductive Input where
  | mk : Value → Definition → List Input → String → Input

def Input.value : Input → Value
  | .mk v _ _ _ => v

def Input.definition : Input → Definition
  | .mk _ d _ _ => d

def Input.parents : Input → List Input
  | .mk _ _ ps _ => ps

def Input.uid : Input → String
  | .mk _ _ _ u => u

mutual
/-- Boolean structural equality for `Input` (deriving cannot handle the
nested `List Input` field). -/
def Input.beq : Input → Input → Bool
  | .mk v d ps u, .mk v' d' ps' u' =>
    v == v' && d == d' && Input.beqList ps ps' && u == u'
def Input.beqList : List Input → List Input → Bool
  | [], [] => true
  | a :: as, b :: bs => Input.beq a b && Input.beqList as bs
  | _, _ => false
end

theorem Input.beq_iff_bounded :
    ∀ n, ∀ a : Input, sizeOf a < n → ∀ b, (Input.beq a b = true ↔ a = b) := by
  intro n
  induction n with
  | zero => intro a ha; omega
  | succ n ih =>
    intro a ha b
    match a, b with
    | .mk v d ps u, .mk v' d' ps' u' =>
      have hps : sizeOf ps < n := by
        have := Input.mk.sizeOf_spec v d ps u
        omega
      have hlist : ∀ qs : List Input, sizeOf qs ≤ sizeOf ps → ∀ qs',
          (Input.beqList qs qs' = true ↔ qs = qs') := by
        intro qs
        induction qs with
        | nil => intro _ qs'; cases qs' <;> simp [Input.beqList]
        | cons q qs ihq =>
          intro hq qs'
          cases qs' with
          | nil => simp [Input.beqList]
          | cons q' qs' =>
            have hcs := List.cons.sizeOf_spec q qs
            have hq1 : sizeOf q < n := by omega
            have hq2 : sizeOf qs ≤ sizeOf ps := by omega
            simp [Input.beqList, Bool.and_eq_true, ih q hq1 q', ihq hq2 qs']
      constructor
      · intro h
        simp only [Input.beq, Bool.and_eq_true, beq_iff_eq] at h
        obtain ⟨⟨⟨h1, h2⟩, h3⟩, h4⟩ := h
        have := (hlist ps (le_refl _) ps').mp h3
        subst h1; subst h2; subst h4; rw [this]
      · intro h
        cases h
        have hb := (hlist ps (le_refl _) ps).mpr rfl
        simp [Input.beq, hb]

theorem Input.beq_iff (a b : Input) : (Input.beq a b = true) ↔ a = b :=
  Input.beq_iff_bounded (sizeOf a + 1) a (Nat.lt_succ_self _) b

instance : DecidableEq Input := fun a b =>
  decidable_of_iff (Input.beq a b = true) (Input.beq_iff a b)

/-- `Input.__init__`: `parents=None` becomes `[]`; a falsy (empty) `uid`
is replaced by a freshly generated uuid, modelled as the explicit
`freshUid` argument. -/
def Input.make (value : Value) (definition : Definition)
    (parents : Option (List Input)) (uid : String) (freshUid : String) : Input :=
  .mk value definition (parents.getD []) (if uid = "" then freshUid else uid)

mutual
/-- `Input.get_parents`:
`list(set(chain(*[[item] + list(set(item.get_parents())) for item in self.parents])))`.
Python's `set` deduplication becomes `List.dedup`; set iteration order is
unspecified in the source, so any fixed dedup order is a faithful model. -/
def Input.getParents : Input → List Input
  | .mk _ _ parents _ => (Input.getParentsChain parents).dedup
/-- The `chain(*[[item] + list(set(item.get_parents())) for item in parents])`
part of `Input.get_parents`. -/
def Input.getParentsChain : List Input → List Input
  | [] => []
  | p :: rest => (p :: (Input.getParents p).dedup) ++ Input.getParentsChain rest
end

/-- `a` is a transitive ancestor of `i` through `parents` links. -/
inductive Input.Ancestor : Input → Input → Prop where
  | parent {v d ps u} {p : Input} : p ∈ ps → Input.Ancestor p (.mk v d ps u)
  | step {v d ps u} {a p : Input} : p ∈ ps → Input.Ancestor a p →
      Input.Ancestor a (.mk v d ps u)

/-- Exported (dict) form of an `Input`: `Input.export` serialises only the
value and the exported definition (no `uid`, no `parents` key). -/
structure InputExport where
  value : Value
  definition : DefDict
deriving DecidableEq, Repr

/-- `Input.export`. -/
def Input.export : Input → InputExport
  | .mk v d _ _ => ⟨v, d.export⟩

/-- `Input._fromdict`: rebuilds the definition and calls `Input.__init__`
with only `value` and `definition`, so the parents default to `[]` and the
uid is freshly generated. -/
def Input.fromdict (ie : InputExport) (freshUid : String) : Input :=
  Input.make ie.value (Definition.fromdict ie.definition) Option.none "" freshUid

/-- Python exceptions surfaced by the deserialisation code paths.
`nameError s` models `NameError: name '<s>' is not defined`. -/
inductive PyErr where
  | nameError : String → PyErr
  | typeError : PyErr
  | keyError : String → PyErr
deriving DecidableEq, Repr

/-- The value at an input/output port of an operation dict on the wire:
a full definition dict (unlinked form, or linked form after
`_resolve_operations` substituted it) or a bare definition name (linked
form before resolution). -/
inductive DefRef where
  | dict : DefDict → DefRef
  | name : String → DefRef
deriving DecidableEq, Repr

/-- Exported (dict) form of an `Operation`.  `Operation.export` deletes
the `"conditions"` and `"expand"` keys when empty and `Operation._fromdict`
tolerates a missing `"stage"`, so those are `Option`s (`none` = key
absent).  `instance_name` is never exported. -/
structure OperationDict where
  name : String
  inputs : List (String × DefRef)
  outputs : List (String × DefRef)
  stage : Option String
  conditions : Option (List CondEntry)
  expand : Option (List String)
deriving DecidableEq, Repr

/-- `Operation.export`: builds the full dict (conditions as definition
names, inputs/outputs as exported definition dicts), then deletes the
`conditions`/`expand` keys when their lists are empty. -/
def Operation.export (op : Operation) : OperationDict :=
  let conds := op.conditions.map (fun c => CondEntry.name c.defName)
  { name := op.name
    inputs := op.inputs.map (fun kv => (kv.1, DefRef.dict kv.2.export))
    outputs := op.outputs.map (fun kv => (kv.1, DefRef.dict kv.2.export))
    stage := some op.stage.value
    conditions := if conds.isEmpty then Option.none else some conds
    expand := if op.expand.isEmpty then Option.none else some op.expand }

/-- `DataFlow._linked_operations`: `Operation.export` with the
inputs/outputs values overwritten by the bare definition names. -/
def Operation.linkedExport (op : Operation) : OperationDict :=
  let e := op.export
  { e with
    inputs := op.inputs.map (fun kv => (kv.1, DefRef.name kv.2.name))
    outputs := op.outputs.map (fun kv => (kv.1, DefRef.name kv.2.name)) }

/-- `str.upper()` (uppercasing character by character; stated over the
character list, which agrees with `String.toUpper`). -/
def strUpper (s : String) : String := String.mk (s.data.map Char.toUpper)

/-- `Stage[s.upper()]`: enum member lookup, `KeyError` on anything else. -/
def Stage.fromString (s : String) : Except PyErr Stage :=
  match strUpper s with
  | "PROCESSING" => .ok .PROCESSING
  | "CLEANUP" => .ok .CLEANUP
  | "OUTPUT" => .ok .OUTPUT
  | _ => .error (.keyError s)

/-- `Definition._fromdict(**definition)` applied to a port value: a bare
name string instead of a dict faults in the source (`TypeError`). -/
def DefRef.fromdict : DefRef → Except PyErr Definition
  | .dict dd => .ok (Definition.fromdict dd)
  | .name _ => .error .typeError

/-- `Operation._fromdict(instance_name=…, **operation)`: rebuilds
inputs/outputs via `Definition._fromdict` and parses `stage`; `conditions`
are NOT converted (they stay whatever the dict held) and `expand` falls
back to the NamedTuple default `[]`. -/
def Operation.fromdict (instanceName : String) (od : OperationDict) :
    Except PyErr Operation := do
  let inputs ← od.inputs.mapM (fun kv => do
    let d ← DefRef.fromdict kv.2
    pure (kv.1, d))
  let outputs ← od.outputs.mapM (fun kv => do
    let d ← DefRef.fromdict kv.2
    pure (kv.1, d))
  let stage ← match od.stage with
    | Option.none => pure Stage.PROCESSING
    | some s => Stage.fromString s
  pure { name := od.name
         inputs := inputs
         outputs := outputs
         stage := stage
         conditions := od.conditions.getD []
         expand := od.expand.getD []
         instance_name := some instanceName }

/-- `InputFlow`: a dict mapping an operation's input ports to the list of
sources (`"seed"` or `"<instance>.<output-port>"`) allowed to feed them.
The class is a plain `dict` subclass whose `export` is `dict(self)`, so it
is modelled as the association list itself. -/
abbrev InputFlow : Type := List (String × List String)

/-- `DataFlow` (types.py) after `__post_init__` ran: `definitions` is the
derived field.  The `implementations` field (runtime-only, never
serialised) is elided. -/
structure DataFlow where
  operations : List (String × Operation)
  seed : List Input
  configs : List (String × Value)
  definitions : List (String × Definition)
  flow : List (String × InputFlow)
deriving DecidableEq

/-- The definitions-derivation part of `DataFlow.__post_init__`
(lines 345-363): the set of all definitions on the operations' inputs and
outputs (conditions are NOT included), keyed by name.  On a name collision
the source keeps whichever definition the (hash-ordered) set iteration
yields last; the fold models that unspecified choice as
last-in-declaration-order, and no error is ever raised. -/
def DataFlow.derivedDefinitions (ops : List Operation) : List (String × Definition) :=
  let all := (ops.flatMap (fun op =>
    op.inputs.map Prod.snd ++ op.outputs.map Prod.snd)).dedup
  all.foldl (fun m d => dictSet m d.name d) []

/-- The `DataFlow` dataclass constructor plus `__post_init__`: `None`
arguments become fresh empty containers, every operation value is stamped
with its dict key as `instance_name` (`_replace(instance_name=…)`), and
`definitions` is derived.  The handling of `op`-decorated callables
(which only substitutes `value.op` for the callable before stamping) is
elided: operation values are already `Operation`s here. -/
def DataFlow.build (operations : List (String × Operation))
    (seed : Option (List Input)) (configs : Option (List (String × Value)))
    (flow : Option (List (String × InputFlow))) : DataFlow :=
  let ops := operations.map (fun kv => (kv.1, { kv.2 with instance_name := some kv.1 }))
  { operations := ops
    seed := seed.getD []
    configs := configs.getD []
    definitions := DataFlow.derivedDefinitions (ops.map Prod.snd)
    flow := flow.getD [] }

/-- Exported (dict) form of a `DataFlow`.  `linked` models the presence of
the `"linked": True` key and `definitions` the presence of the top-level
definitions table (both written only by `export(linked=True)`). -/
structure DataFlowDict where
  operations : List (String × OperationDict)
  seed : List InputExport
  configs : List (String × Value)
  flow : List (String × InputFlow)
  linked : Bool
  definitions : Option (List (String × DefDict))
deriving DecidableEq, Repr

/-- `DataFlow._linked_operations`: linked-exported operations keyed by
their `instance_name`. -/
def DataFlow.linkedOperations (df : DataFlow) : List (String × OperationDict) :=
  df.operations.map (fun kv => (kv.2.instance_name.getD "", kv.2.linkedExport))

/-- `DataFlow.export(linked=…)`.
Modelled from the spec: the final `export_dict(**exported)` call lives in
`dffml/util/data.py`, which is not under `src/`; per spec section 6 it
recursively serialises every object that has an `export` method, which is
folded in here as the `Input.export` / `Definition.export` maps over
`seed` and `definitions`. -/
def DataFlow.export (df : DataFlow) (linked : Bool) : DataFlowDict :=
  { operations :=
      if linked then df.linkedOperations
      else df.operations.map (fun kv => (kv.1, kv.2.export))
    seed := df.seed.map Input.export
    configs := df.configs
    flow := df.flow
    linked := linked
    definitions :=
      if linked then some (df.definitions.map (fun kv => (kv.1, kv.2.export)))
      else Option.none }

/-- Resolution of one condition entry by `DataFlow._resolve_operations`:
a name is looked up in the definitions table (`raise DefinitionMissing`
when absent — the class is never defined nor imported in types.py, so the
interpreter actually raises `NameError` for the name `DefinitionMissing`);
a non-string entry makes the `in definitions` membership test fault. -/
def CondEntry.resolve (defs : List (String × DefDict)) :
    CondEntry → Except PyErr CondEntry
  | .name s =>
    match dictFind defs s with
    | some dd => .ok (.dict dd)
    | Option.none => .error (.nameError "DefinitionMissing")
  | .dict _ => .error .typeError
  | .defn _ => .error (.nameError "DefinitionMissing")

/-- Resolution of one input/output port value by
`DataFlow._resolve_operations` (same lookup and failure modes). -/
def DefRef.resolve (defs : List (String × DefDict)) :
    DefRef → Except PyErr DefRef
  | .name s =>
    match dictFind defs s with
    | some dd => .ok (.dict dd)
    | Option.none => .error (.nameError "DefinitionMissing")
  | .dict _ => .error .typeError

/-- `DataFlow._resolve_operations` applied to one operation dict:
conditions (when the key is present), then inputs, then outputs have
their definition names replaced by the dicts from the definitions table.
`operation.setdefault("name", name)` and
`definition.setdefault("name", name)` are identities on this wire format
(the `name` fields are always present). -/
def OperationDict.resolve (defs : List (String × DefDict)) (od : OperationDict) :
    Except PyErr OperationDict := do
  let conditions ← match od.conditions with
    | Option.none => pure Option.none
    | some cs => do
      let cs' ← cs.mapM (CondEntry.resolve defs)
      pure (some cs')
  let inputs ← od.inputs.mapM (fun kv => do
    let r ← DefRef.resolve defs kv.2
    pure (kv.1, r))
  let outputs ← od.outputs.mapM (fun kv => do
    let r ← DefRef.resolve defs kv.2
    pure (kv.1, r))
  pure { od with conditions := conditions, inputs := inputs, outputs := outputs }

/-- `DataFlow._resolve_operations`: resolve every operation dict against
the definitions table (`source.get("definitions", {})`). -/
def DataFlow.resolveOperations (defs : List (String × DefDict))
    (ops : List (String × OperationDict)) :
    Except PyErr (List (String × OperationDict)) :=
  ops.mapM (fun kv => do
    let od ← OperationDict.resolve defs kv.2
    pure (kv.1, od))

/-- `DataFlow._fromdict(linked=…, **kwargs)`: when linked, resolve the
operations then `del kwargs["definitions"]` (a `KeyError` when the table
is absent); rebuild operations with their dict key as `instance_name`,
rebuild seed inputs (each drawing a fresh uid from `uids`), rewrap the
flow, and run the dataclass constructor.  An unlinked dict carrying a
`definitions` key would make the constructor fault (`definitions` is an
`init=False` field). -/
def DataFlow.fromdict (dd : DataFlowDict) (uids : Nat → String) :
    Except PyErr DataFlow := do
  let opsDicts ←
    if dd.linked then do
      let resolved ← DataFlow.resolveOperations (dd.definitions.getD []) dd.operations
      match dd.definitions with
      | Option.none => Except.error (.keyError "definitions")
      | some _ => pure resolved
    else
      match dd.definitions with
      | Option.none => pure dd.operations
      | some _ => Except.error .typeError
  let ops ← opsDicts.mapM (fun kv => do
    let op ← Operation.fromdict kv.1 kv.2
    pure (kv.1, op))
  let seed := dd.seed.enum.map (fun nv => Input.fromdict nv.2 (uids nv.1))
  pure (DataFlow.build ops (some seed) (some dd.configs) (some dd.flow))

/-- Registration of one output of `operation` into `output_dict`:
`output_dict.setdefault(output.name, {})` followed by
`output_dict[output.name].update({operation.name: operation})`. -/
def DataFlow.outputAdd (op : Operation)
    (od : List (String × List (String × Operation))) (out : String × Definition) :
    List (String × List (String × Operation)) :=
  dictSet od out.2.name (dictSet ((dictFind od out.2.name).getD []) op.name op)

/-- The `output_dict` built by `DataFlow.auto`: definition name of each
output ↦ dict keyed by producing operation name. -/
def DataFlow.autoOutputDict (operations : List Operation) :
    List (String × List (String × Operation)) :=
  operations.foldl (fun od op => op.outputs.foldl (DataFlow.outputAdd op) od) []

/-- The sources `DataFlow.auto` assigns to one input port `(port, d)`:
when `d.name` is in `output_dict`, set the entry to `[]` and then append
`"<producer>.<output-port>"` for each output of each producing operation
whose definition equals `d` (net effect: the collected list); otherwise
the literal `["seed"]`. -/
def DataFlow.portSources (od : List (String × List (String × Operation)))
    (inp : String × Definition) : List String :=
  match dictFind od inp.2.name with
  | some producing =>
    producing.foldl (fun acc q =>
      q.2.outputs.foldl (fun acc out =>
        if out.2 = inp.2 then acc ++ [q.2.name ++ "." ++ out.1] else acc) acc) []
  | Option.none => ["seed"]

/-- One iteration of `DataFlow.auto`'s main loop: fill in the flow entry
of `operation` (created by `flow_dict.setdefault(operation.name, InputFlow())`)
for each of its input ports. -/
def DataFlow.autoFlowStep (od : List (String × List (String × Operation)))
    (fd : List (String × InputFlow)) (op : Operation) : List (String × InputFlow) :=
  let fl0 : InputFlow := (dictFind fd op.name).getD []
  let fl := op.inputs.foldl (fun fl inp =>
    dictSet fl inp.1 (DataFlow.portSources od inp)) fl0
  dictSet fd op.name fl

/-- The `flow_dict` computed by `DataFlow.auto`. -/
def DataFlow.autoFlow (operations : List Operation) : List (String × InputFlow) :=
  let od := DataFlow.autoOutputDict operations
  operations.foldl (DataFlow.autoFlowStep od) []

/-- `DataFlow.auto(*operations)`: the dataclass constructor on
`{op.name: op}` with the auto-wired flow (seed and configs omitted). -/
def DataFlow.auto (operations : List Operation) : DataFlow :=
  DataFlow.build (operations.foldl (fun m op => dictSet m op.name op) [])
    Option.none Option.none (some (DataFlow.autoFlow operations))

/-- Specification-side producer list for a consumed definition `d`: over
the supplied operations in order, those having at least one output whose
definition is named `d.name`, each contributing
`"<name>.<output-port>"` for its outputs whose definition equals `d`, in
declaration order. -/
def producersFor (operations : List Operation) (d : Definition) : List String :=
  (operations.filter (fun q => q.outputs.any (fun out => out.2.name = d.name))).flatMap
    (fun q => (q.outputs.filter (fun out => out.2 = d)).map
      (fun out => q.name ++ "." ++ out.1))

/-! ### Association-list dictionary lemmas -/

theorem dictFind_dictSet_self {α : Type} (m : List (String × α)) (k : String) (v : α) :
    dictFind (dictSet m k v) k = some v := by
  induction m with
  | nil => simp [dictSet, dictFind]
  | cons kv rest ih =>
    by_cases h : kv.1 = k
    · simp [dictSet, dictFind, h]
    · simp [dictSet, dictFind, h, ih]

theorem dictFind_dictSet_ne {α : Type} (m : List (String × α)) (k k' : String) (v : α)
    (h : k ≠ k') : dictFind (dictSet m k v) k' = dictFind m k' := by
  induction m with
  | nil => simp [dictSet, dictFind, h]
  | cons kv rest ih =>
    by_cases hk : kv.1 = k
    · simp [dictSet, dictFind, hk, h]
    · simp [dictSet, dictFind, hk, ih]

theorem dictSet_of_find_none {α : Type} (m : List (String × α)) (k : String) (v : α)
    (h : dictFind m k = Option.none) : dictSet m k v = m ++ [(k, v)] := by
  induction m with
  | nil => simp [dictSet]
  | cons kv rest ih =>
    by_cases hk : kv.1 = k
    · simp [dictFind, hk] at h
    · simp [dictFind, hk] at h
      simp [dictSet, hk, ih h]

theorem dictSet_idem {α : Type} (m : List (String × α)) (k : String) (v : α) :
    dictSet (dictSet m k v) k v = dictSet m k v := by
  induction m with
  | nil => simp [dictSet]
  | cons kv rest ih =>
    by_cases hk : kv.1 = k
    · simp [dictSet, hk]
    · simp [dictSet, hk, ih]

theorem dictFind_append {α : Type} (m1 m2 : List (String × α)) (k : String) :
    dictFind (m1 ++ m2) k =
      match dictFind m1 k with
      | some v => some v
      | Option.none => dictFind m2 k := by
  induction m1 with
  | nil => simp [dictFind]
  | cons kv rest ih =>
    by_cases hk : kv.1 = k
    · simp [dictFind, hk]
    · simp [dictFind, hk, ih]

theorem dictFind_map {α β : Type} (f : α → β) (m : List (String × α)) (k : String) :
    dictFind (m.map (fun kv => (kv.1, f kv.2))) k = (dictFind m k).map f := by
  induction m with
  | nil => simp [dictFind]
  | cons kv rest ih =>
    by_cases hk : kv.1 = k
    · simp [dictFind, hk]
    · simp [dictFind, hk, ih]

theorem dictFind_isSome_foldl_dictSet {α : Type} (f : α → String) (g : α → α)
    (l : List α) (m : List (String × α)) (k : String)
    (h : dictFind m k ≠ Option.none) :
    dictFind (l.foldl (fun m d => dictSet m (f d) (g d)) m) k ≠ Option.none := by
  induction l generalizing m with
  | nil => exact h
  | cons d rest ih =>
    refine ih (dictSet m (f d) (g d)) ?_
    by_cases hk : f d = k
    · rw [hk, dictFind_dictSet_self]; simp
    · rw [dictFind_dictSet_ne _ _ _ _ hk]; exact h

theorem exceptBind_ok {ε α β : Type} (a : α) (f : α → Except ε β) :
    (Except.ok a >>= f : Except ε β) = f a := rfl

theorem exceptBind_pure {ε α β : Type} (a : α) (f : α → Except ε β) :
    ((pure a : Except ε α) >>= f) = f a := rfl

theorem mapM_ok {ε α β : Type} (f : α → Except ε β) (g : α → β) :
    ∀ l : List α, (∀ x ∈ l, f x = Except.ok (g x)) → l.mapM f = Except.ok (l.map g) := by
  intro l
  induction l with
  | nil => intro h; rfl
  | cons x xs ih =>
    intro h
    rw [List.mapM_cons, h x (by simp), ih (fun y hy => h y (by simp [hy]))]
    rfl

/-- `Definition` round-trips through its dict form (at the structural
level; the Python-side reconstruction of a `spec` NamedTuple class always
produces a fresh class object, which this structural model abstracts). -/
theorem Definition.export_roundtrip (d : Definition) :
    Definition.fromdict d.export = d := by
  cases d with
  | mk n p l s => cases l <;> simp [Definition.export, Definition.fromdict]

/-! ### Claim C8 -/

/-- Claim C8: `Operation.export` omits the `conditions` key exactly when
`conditions` is empty and the `expand` key exactly when `expand` is empty;
a present `conditions` key holds the list of the conditions' definition
names. -/
theorem c8_export_omits_empty (op : Operation) :
    (Operation.export op).conditions
        = (if op.conditions = [] then Option.none
           else some (op.conditions.map (fun c => CondEntry.name c.defName)))
      ∧ (Operation.export op).expand
        = (if op.expand = [] then Option.none else some op.expand) := by
  constructor
  · cases h : op.conditions <;> simp [Operation.export, h]
  · cases h : op.expand <;> simp [Operation.export, h]

/-! ### Claim C9 -/

/-- Claim C9: after `DataFlow` construction every operation value is
stamped with its dict key as `instance_name`, overriding whatever
`instance_name` the supplied descriptor carried. -/
theorem c9_instance_name_stamped (operations : List (String × Operation))
    (seed : Option (List Input)) (configs : Option (List (String × Value)))
    (flow : Option (List (String × InputFlow))) (kv : String × Operation)
    (h : kv ∈ (DataFlow.build operations seed configs flow).operations) :
    kv.2.instance_name = some kv.1 := by
  unfold DataFlow.build at h
  simp only [List.mem_map] at h
  obtain ⟨a, _, rfl⟩ := h
  rfl

def c9demoOp : Operation :=
  { name := "f", inputs := [], outputs := [], instance_name := some "stale" }

theorem c9_instance_name_stamped_witness :
    ({ c9demoOp with instance_name := some "inst" } : Operation).instance_name
      = some "inst" :=
  c9_instance_name_stamped [("inst", c9demoOp)] Option.none Option.none Option.none
    ("inst", { c9demoOp with instance_name := some "inst" }) (by simp [DataFlow.build])

/-! ### Claim C10 -/

/-- Claim C10: `Input.export` keeps only the value and the exported
definition — no uid, no parents — so `Input._fromdict` of an exported
Input rebuilds it with a fresh uid and an empty parents list (identity and
parentage are not preserved). -/
theorem c10_input_export_drops_uid_parents (i : Input) (fresh : String) :
    i.export = ⟨i.value, i.definition.export⟩
      ∧ Input.fromdict i.export fresh = .mk i.value i.definition [] fresh := by
  cases i with
  | mk v d ps u =>
    refine ⟨rfl, ?_⟩
    show Input.make v (Definition.fromdict (Definition.export d)) Option.none "" fresh = _
    rw [Definition.export_roundtrip]
    rfl

/-! ### Claim C2 -/

def c2def : Definition := { name := "x", primitive := "str" }

def c2op : Operation := { name := "f", inputs := [("x", c2def)], outputs := [] }

/-- Claim C2 counterexample: for the one-operation flow `f(x)`, building
with `flow` set to the auto-wired flow differs from building with `flow`
omitted — `__post_init__` replaces an omitted `flow` with the empty dict
and never auto-wires. -/
theorem c2_counterexample :
    DataFlow.build [("f", c2op)] Option.none Option.none
        (some (DataFlow.autoFlow [c2op]))
      ≠ DataFlow.build [("f", c2op)] Option.none Option.none Option.none := by
  decide

/-- Claim C2 amended: building with `flow` omitted yields the empty flow
(no auto-wiring happens), so `build(ops, seed, flow=auto(ops))` equals
`build(ops, seed)` exactly when the auto-wired flow is itself empty. -/
theorem c2_amended_flow_default_empty (operations : List (String × Operation))
    (seed : Option (List Input)) (configs : Option (List (String × Value))) :
    (DataFlow.build operations seed configs Option.none).flow = []
      ∧ ((DataFlow.build operations seed configs
            (some (DataFlow.autoFlow (operations.map Prod.snd)))
          = DataFlow.build operations seed configs Option.none)
          ↔ DataFlow.autoFlow (operations.map Prod.snd) = []) := by
  refine ⟨rfl, ?_⟩
  simp [DataFlow.build, DataFlow.mk.injEq]

/-! ### Claim C4 -/

def c4condDef : Definition := { name := "c", primitive := "bool" }

def c4inDef : Definition := { name := "x", primitive := "str" }

def c4op : Operation :=
  { name := "f", inputs := [("x", c4inDef)], outputs := []
    conditions := [CondEntry.defn c4condDef] }

/-- Claim C4 counterexample: operation `f` has condition definition `c`,
yet the derived `definitions` map of the constructed `DataFlow` has no
entry for `"c"` — `__post_init__` unions only input and output
definitions, so the map is not the claimed union including conditions. -/
theorem c4_counterexample :
    CondEntry.defn c4condDef ∈ c4op.conditions ∧ c4condDef.name = "c"
      ∧ dictFind (DataFlow.build [("f", c4op)] Option.none Option.none
          Option.none).definitions "c" = Option.none := by
  decide

/-- All definitions on the inputs and outputs of a keyed operation list. -/
def ioDefsOf (ops : List (String × Operation)) : List Definition :=
  ops.flatMap (fun kv => kv.2.inputs.map Prod.snd ++ kv.2.outputs.map Prod.snd)

theorem dictFind_foldl_dictSet_mem {l : List Definition} {m : List (String × Definition)}
    {n : String} {d : Definition}
    (h : dictFind (l.foldl (fun m d => dictSet m d.name d) m) n = some d) :
    (d ∈ l ∧ d.name = n) ∨ dictFind m n = some d := by
  induction l generalizing m with
  | nil => exact Or.inr h
  | cons d0 rest ih =>
    rcases ih h with hmem | hfind
    · exact Or.inl ⟨List.mem_cons_of_mem _ hmem.1, hmem.2⟩
    · replace hfind : dictFind (dictSet m d0.name d0) n = some d := hfind
      by_cases hn : d0.name = n
      · rw [hn, dictFind_dictSet_self] at hfind
        cases hfind
        exact Or.inl ⟨List.mem_cons_self _ _, hn⟩
      · rw [dictFind_dictSet_ne _ _ _ _ hn] at hfind
        exact Or.inr hfind

theorem dictFind_foldl_dictSet_covers (l : List Definition)
    (m : List (String × Definition)) (d : Definition) (h : d ∈ l) :
    dictFind (l.foldl (fun m d => dictSet m d.name d) m) d.name ≠ Option.none := by
  induction l generalizing m with
  | nil => cases h
  | cons d0 rest ih =>
    rw [List.foldl_cons]
    rcases List.mem_cons.mp h with rfl | hrest
    · refine dictFind_isSome_foldl_dictSet Definition.name id rest _ d.name ?_
      show dictFind (dictSet m d.name d) d.name ≠ Option.none
      rw [dictFind_dictSet_self]
      simp
    · exact ih _ hrest

theorem definitions_find_mem (operations : List (String × Operation))
    (seed : Option (List Input)) (configs : Option (List (String × Value)))
    (flow : Option (List (String × InputFlow))) (n : String) (d : Definition)
    (h : dictFind (DataFlow.build operations seed configs flow).definitions n
      = some d) :
    d.name = n
      ∧ d ∈ ioDefsOf (DataFlow.build operations seed configs flow).operations := by
  have hio : ioDefsOf (DataFlow.build operations seed configs flow).operations
      = ((DataFlow.build operations seed configs flow).operations.map Prod.snd).flatMap
          (fun op => op.inputs.map Prod.snd ++ op.outputs.map Prod.snd) := by
    simp [ioDefsOf, List.flatMap_map]
  have h' := dictFind_foldl_dictSet_mem (m := []) (by exact h)
  rcases h' with ⟨hmem, hname⟩ | hfind
  · rw [List.mem_dedup] at hmem
    exact ⟨hname, by rw [hio]; exact hmem⟩
  · simp [dictFind] at hfind

theorem definitions_find_covers (operations : List (String × Operation))
    (seed : Option (List Input)) (configs : Option (List (String × Value)))
    (flow : Option (List (String × InputFlow))) (d : Definition)
    (hd : d ∈ ioDefsOf (DataFlow.build operations seed configs flow).operations) :
    dictFind (DataFlow.build operations seed configs flow).definitions d.name
      ≠ Option.none := by
  have hio : ioDefsOf (DataFlow.build operations seed configs flow).operations
      = ((DataFlow.build operations seed configs flow).operations.map Prod.snd).flatMap
          (fun op => op.inputs.map Prod.snd ++ op.outputs.map Prod.snd) := by
    simp [ioDefsOf, List.flatMap_map]
  rw [hio] at hd
  rw [← List.mem_dedup] at hd
  exact dictFind_foldl_dictSet_covers _ [] d hd

/-- Claim C4 amended: the derived `definitions` map is keyed by definition
name and covers exactly the definitions appearing on the operations'
inputs and outputs (conditions excluded); every entry is one of those
definitions under its own name.  Construction is total: a name collision
is never rejected, one of the colliding definitions is silently kept. -/
theorem c4_amended_definitions_io_union (operations : List (String × Operation))
    (seed : Option (List Input)) (configs : Option (List (String × Value)))
    (flow : Option (List (String × InputFlow))) :
    (∀ n d, dictFind (DataFlow.build operations seed configs flow).definitions n = some d →
      d.name = n ∧ d ∈ ioDefsOf (DataFlow.build operations seed configs flow).operations)
    ∧ (∀ d, d ∈ ioDefsOf (DataFlow.build operations seed configs flow).operations →
      dictFind (DataFlow.build operations seed configs flow).definitions d.name
        ≠ Option.none) :=
  ⟨fun n d h => definitions_find_mem operations seed configs flow n d h,
   fun d hd => definitions_find_covers operations seed configs flow d hd⟩

def c4wOp : Operation := { name := "g", inputs := [("x", c4inDef)], outputs := [] }

theorem c4_amended_definitions_io_union_witness :
    c4inDef.name = "x"
      ∧ c4inDef ∈ ioDefsOf (DataFlow.build [("g", c4wOp)] Option.none Option.none
          Option.none).operations :=
  (c4_amended_definitions_io_union [("g", c4wOp)] Option.none Option.none
    Option.none).1 "x" c4inDef (by decide)

def exceptDecEq {ε α : Type} [DecidableEq ε] [DecidableEq α] :
    (a b : Except ε α) → Decidable (a = b)
  | .ok a, .ok b =>
    if h : a = b then .isTrue (by rw [h])
    else .isFalse (by intro hh; exact h (Except.ok.inj hh))
  | .error e, .error f =>
    if h : e = f then .isTrue (by rw [h])
    else .isFalse (by intro hh; exact h (Except.error.inj hh))
  | .ok _, .error _ => .isFalse (fun h => Except.noConfusion h)
  | .error _, .ok _ => .isFalse (fun h => Except.noConfusion h)

instance {ε α : Type} [DecidableEq ε] [DecidableEq α] : DecidableEq (Except ε α) :=
  exceptDecEq

/-! ### Claim C5 -/

/-- A linked DataFlow dict whose operation `op1` references the definition
name `missing_def`, absent from the (empty) definitions table. -/
def c5dict : DataFlowDict :=
  { operations := [("op1",
      { name := "op1"
        inputs := [("x", DefRef.name "missing_def")]
        outputs := []
        stage := Option.none
        conditions := Option.none
        expand := Option.none })]
    seed := []
    configs := []
    flow := []
    linked := true
    definitions := some [] }

/-- Claim C5: importing a linked DataFlow dict with a dangling definition
reference fails at submission time, before any `DataFlow` is constructed.
The failure is raised by `raise DefinitionMissing(…)` inside
`_resolve_operations`; since `DefinitionMissing` is neither defined nor
imported anywhere in `dffml/df/types.py`, what the interpreter actually
raises at that point is `NameError` for the name `DefinitionMissing`. -/
theorem c5_missing_definition_raises :
    DataFlow.fromdict c5dict (fun _ => "uid")
      = Except.error (PyErr.nameError "DefinitionMissing") := by
  decide

/-! ### Claim C1 -/

def c1def : Definition := { name := "x", primitive := "str" }

def c1op : Operation := { name := "f", inputs := [("x", c1def)], outputs := [] }

def c1df : DataFlow :=
  DataFlow.build [("f", c1op)] (some [Input.mk (.str "v") c1def [] "u0"])
    Option.none Option.none

/-- Claim C1 counterexample: for a DataFlow with one seed Input (uid
`"u0"`), `_fromdict(export(linked=False))` does not return an equal
DataFlow — the exported seed loses its uid, so the re-imported seed Input
carries a freshly generated uid instead. -/
theorem c1_counterexample :
    DataFlow.fromdict (c1df.export false) (fun _ => "fresh-uuid4")
      ≠ Except.ok c1df := by
  decide

/-! ### Claim C7 -/

theorem Input.getParentsChain_mem (ps : List Input) (a : Input) :
    a ∈ Input.getParentsChain ps ↔ ∃ p ∈ ps, a = p ∨ a ∈ Input.getParents p := by
  induction ps with
  | nil => simp [Input.getParentsChain]
  | cons p rest ih =>
    constructor
    · intro h
      simp only [Input.getParentsChain] at h
      rcases List.mem_append.mp h with h1 | h2
      · rcases List.mem_cons.mp h1 with heq | h1'
        · exact ⟨p, List.mem_cons_self _ _, Or.inl heq⟩
        · exact ⟨p, List.mem_cons_self _ _, Or.inr (List.mem_dedup.mp h1')⟩
      · obtain ⟨q, hq, hqa⟩ := ih.mp h2
        exact ⟨q, List.mem_cons_of_mem _ hq, hqa⟩
    · rintro ⟨q, hq, hqa⟩
      simp only [Input.getParentsChain]
      rcases List.mem_cons.mp hq with rfl | hq'
      · refine List.mem_append.mpr (Or.inl ?_)
        rcases hqa with rfl | hmem
        · exact List.mem_cons_self _ _
        · exact List.mem_cons_of_mem _ (List.mem_dedup.mpr hmem)
      · exact List.mem_append.mpr (Or.inr (ih.mpr ⟨q, hq', hqa⟩))

theorem Input.ancestor_iff (v : Value) (d : Definition) (ps : List Input) (u : String)
    (a : Input) :
    Input.Ancestor a (.mk v d ps u) ↔ ∃ p ∈ ps, a = p ∨ Input.Ancestor a p := by
  constructor
  · intro h
    cases h with
    | parent hp => exact ⟨_, hp, Or.inl rfl⟩
    | step hp ha => exact ⟨_, hp, Or.inr ha⟩
  · rintro ⟨p, hp, rfl | ha⟩
    · exact Input.Ancestor.parent hp
    · exact Input.Ancestor.step hp ha

theorem Input.getParents_mem_bounded :
    ∀ n, ∀ i : Input, sizeOf i < n →
      ∀ a, (a ∈ Input.getParents i ↔ Input.Ancestor a i) := by
  intro n
  induction n with
  | zero => intro i hi; omega
  | succ n ih =>
    intro i hi a
    match i with
    | .mk v d ps u =>
      have hps : sizeOf ps < n := by
        have := Input.mk.sizeOf_spec v d ps u
        omega
      simp only [Input.getParents, List.mem_dedup, Input.getParentsChain_mem,
        Input.ancestor_iff]
      refine exists_congr fun p => ?_
      refine and_congr_right fun hp => ?_
      refine or_congr_right ?_
      exact ih p (lt_trans (List.sizeOf_lt_of_mem hp) hps) a

/-- Claim C7: `Input.get_parents` returns the transitive ancestors of the
Input — every ancestor reachable through `parents`, no non-ancestor, each
at most once.  (Parent links are modelled structurally, so termination is
by construction; with cyclic object graphs the source would recurse
forever.) -/
theorem c7_get_parents_ancestors (i : Input) :
    (Input.getParents i).Nodup
      ∧ ∀ a, (a ∈ Input.getParents i ↔ Input.Ancestor a i) := by
  constructor
  · cases i with
    | mk v d ps u =>
      simp only [Input.getParents]
      exact List.nodup_dedup _
  · exact Input.getParents_mem_bounded (sizeOf i + 1) i (Nat.lt_succ_self _)

/-! ### Auto-wiring characterisation (claims C3 and C6) -/

/-- The operations having at least one output whose definition is named
`dname`, in supply order. -/
def producerOps (operations : List Operation) (dname : String) : List Operation :=
  operations.filter (fun q => q.outputs.any (fun out => out.2.name = dname))

/-- Accumulator-level restatement of output registration for one
candidate producer (used to characterise `output_dict` lookups). -/
def producerStep (dname : String) (acc : Option (List (String × Operation)))
    (q : Operation) : Option (List (String × Operation)) :=
  if q.outputs.any (fun out => out.2.name = dname)
  then some (dictSet (acc.getD []) q.name q) else acc

theorem outputsStep_find (op : Operation) (outs : List (String × Definition))
    (od : List (String × List (String × Operation))) (dname : String) :
    dictFind (outs.foldl (DataFlow.outputAdd op) od) dname
      = if outs.any (fun out => out.2.name = dname)
        then some (dictSet ((dictFind od dname).getD []) op.name op)
        else dictFind od dname := by
  induction outs generalizing od with
  | nil => simp
  | cons out rest ih =>
    rw [List.foldl_cons, ih]
    by_cases hname : out.2.name = dname
    · have hself : dictFind (DataFlow.outputAdd op od out) dname
          = some (dictSet ((dictFind od dname).getD []) op.name op) := by
        unfold DataFlow.outputAdd
        rw [hname, dictFind_dictSet_self]
      rw [hself]
      by_cases hrest : rest.any (fun out => out.2.name = dname)
      · simp [hrest, hname, dictSet_idem]
      · simp [hrest, hname]
    · have hother : dictFind (DataFlow.outputAdd op od out) dname = dictFind od dname := by
        unfold DataFlow.outputAdd
        exact dictFind_dictSet_ne _ _ _ _ hname
      rw [hother]
      by_cases hrest : rest.any (fun out => out.2.name = dname) <;> simp [hname, hrest]

theorem autoOutputDict_find_fold (operations : List Operation)
    (od : List (String × List (String × Operation))) (dname : String) :
    dictFind (operations.foldl (fun od op => op.outputs.foldl (DataFlow.outputAdd op) od)
        od) dname
      = operations.foldl (producerStep dname) (dictFind od dname) := by
  induction operations generalizing od with
  | nil => rfl
  | cons op rest ih =>
    rw [List.foldl_cons, List.foldl_cons, ih, outputsStep_find]
    by_cases h : op.outputs.any (fun out => out.2.name = dname)
    · have : producerStep dname (dictFind od dname) op
          = some (dictSet ((dictFind od dname).getD []) op.name op) := by
        simp [producerStep, h]
      rw [this]
      simp [h]
    · have : producerStep dname (dictFind od dname) op = dictFind od dname := by
        simp [producerStep, h]
      rw [this]
      simp [h]

theorem producerAcc_char (dname : String) :
    ∀ (operations : List Operation) (acc : Option (List (String × Operation))),
      (∀ q ∈ operations, dictFind (acc.getD []) q.name = Option.none) →
      ((operations.map Operation.name).Nodup) →
      operations.foldl (producerStep dname) acc
        = if producerOps operations dname = [] then acc
          else some (acc.getD []
            ++ (producerOps operations dname).map (fun q => (q.name, q))) := by
  intro operations
  induction operations with
  | nil => intro acc _ _; simp [producerOps]
  | cons q rest ih =>
    intro acc hacc hnodup
    have hqfind : dictFind (acc.getD []) q.name = Option.none :=
      hacc q (List.mem_cons_self _ _)
    have hmap := hnodup
    rw [List.map_cons, List.nodup_cons] at hmap
    obtain ⟨hqnotin, hnodup'⟩ := hmap
    have hset : dictSet (acc.getD []) q.name q = acc.getD [] ++ [(q.name, q)] :=
      dictSet_of_find_none _ _ _ hqfind
    rw [List.foldl_cons]
    by_cases hq : q.outputs.any (fun out => out.2.name = dname)
    · have hstep : producerStep dname acc q = some (acc.getD [] ++ [(q.name, q)]) := by
        simp [producerStep, hq, hset]
      rw [hstep]
      have hpre : ∀ r ∈ rest,
          dictFind ((some (acc.getD [] ++ [(q.name, q)])).getD []) r.name
            = Option.none := by
        intro r hr
        have hrq : r.name ≠ q.name := by
          intro heq
          exact hqnotin (heq ▸ List.mem_map_of_mem Operation.name hr)
        rw [Option.getD_some, dictFind_append, hacc r (List.mem_cons_of_mem _ hr)]
        simp [dictFind, hrq.symm]
      rw [ih _ hpre hnodup']
      have hpo : producerOps (q :: rest) dname = q :: producerOps rest dname := by
        simp [producerOps, List.filter_cons, hq]
      rw [hpo]
      by_cases hrest : producerOps rest dname = []
      · simp [hrest]
      · simp only [hrest, if_false, List.cons_ne_nil, Option.getD_some, List.map_cons]
        simp [List.append_assoc]
    · have hstep : producerStep dname acc q = acc := by
        simp [producerStep, hq]
      rw [hstep]
      have hpre : ∀ r ∈ rest, dictFind (acc.getD []) r.name = Option.none :=
        fun r hr => hacc r (List.mem_cons_of_mem _ hr)
      rw [ih _ hpre hnodup']
      have hpo : producerOps (q :: rest) dname = producerOps rest dname := by
        simp [producerOps, List.filter_cons, hq]
      rw [hpo]

/-- The `output_dict` of `DataFlow.auto`, looked up at a definition name:
absent when no operation outputs that name, otherwise the producing
operations keyed by their names, in supply order. -/
theorem autoOutputDict_find (operations : List Operation) (dname : String)
    (hnodup : (operations.map Operation.name).Nodup) :
    dictFind (DataFlow.autoOutputDict operations) dname
      = if producerOps operations dname = [] then Option.none
        else some ((producerOps operations dname).map (fun q => (q.name, q))) := by
  unfold DataFlow.autoOutputDict
  rw [autoOutputDict_find_fold]
  have h0 : dictFind ([] : List (String × List (String × Operation))) dname
      = Option.none := rfl
  rw [h0, producerAcc_char dname operations Option.none (by intro q _; rfl) hnodup]
  by_cases h : producerOps operations dname = []
  · simp [h]
  · simp [h]

theorem entries_outputs_fold (qname : String) (d : Definition) :
    ∀ (outs : List (String × Definition)) (acc : List String),
      outs.foldl (fun acc out =>
          if out.2 = d then acc ++ [qname ++ "." ++ out.1] else acc) acc
        = acc ++ (outs.filter (fun out => out.2 = d)).map
            (fun out => qname ++ "." ++ out.1) := by
  intro outs
  induction outs with
  | nil => intro acc; simp
  | cons out rest ih =>
    intro acc
    simp only [List.foldl_cons]
    by_cases h : out.2 = d
    · rw [if_pos h, ih, List.filter_cons]
      simp [h, List.append_assoc]
    · rw [if_neg h, ih, List.filter_cons]
      simp [h]

theorem entries_producing_fold (d : Definition) :
    ∀ (producing : List (String × Operation)) (acc : List String),
      producing.foldl (fun acc q =>
          q.2.outputs.foldl (fun acc out =>
            if out.2 = d then acc ++ [q.2.name ++ "." ++ out.1] else acc) acc) acc
        = acc ++ producing.flatMap (fun q =>
            (q.2.outputs.filter (fun out => out.2 = d)).map
              (fun out => q.2.name ++ "." ++ out.1)) := by
  intro producing
  induction producing with
  | nil => intro acc; simp
  | cons q rest ih =>
    intro acc
    simp only [List.foldl_cons]
    rw [entries_outputs_fold q.2.name d q.2.outputs acc, ih]
    simp [List.append_assoc]

/-- What `DataFlow.auto` assigns to an input port with definition `d`:
`["seed"]` when no operation has an output named `d.name`, otherwise the
supply-ordered producer strings. -/
theorem portSources_char (operations : List Operation) (p : String) (d : Definition)
    (hnodup : (operations.map Operation.name).Nodup) :
    DataFlow.portSources (DataFlow.autoOutputDict operations) (p, d)
      = if producerOps operations d.name = [] then ["seed"]
        else producersFor operations d := by
  unfold DataFlow.portSources
  rw [autoOutputDict_find operations d.name hnodup]
  by_cases h : producerOps operations d.name = []
  · simp [h]
  · simp only [h, if_false]
    rw [entries_producing_fold]
    simp only [List.nil_append, List.flatMap_map]
    rfl

theorem autoFlowFold_preserve (od : List (String × List (String × Operation)))
    (k : String) :
    ∀ (ops : List Operation) (fd : List (String × InputFlow)),
      (∀ q ∈ ops, q.name ≠ k) →
      dictFind (ops.foldl (DataFlow.autoFlowStep od) fd) k = dictFind fd k := by
  intro ops
  induction ops with
  | nil => intro fd _; rfl
  | cons q rest ih =>
    intro fd h
    simp only [List.foldl_cons]
    rw [ih _ (fun r hr => h r (List.mem_cons_of_mem _ hr))]
    unfold DataFlow.autoFlowStep
    exact dictFind_dictSet_ne _ _ _ _ (h q (List.mem_cons_self _ _))

/-- The flow entry `DataFlow.auto` builds for one operation. -/
def DataFlow.autoEntry (od : List (String × List (String × Operation)))
    (op : Operation) : InputFlow :=
  op.inputs.foldl (fun fl inp => dictSet fl inp.1 (DataFlow.portSources od inp)) []

theorem autoFlow_find (od : List (String × List (String × Operation))) :
    ∀ (ops : List Operation) (fd : List (String × InputFlow)) (op : Operation),
      (ops.map Operation.name).Nodup → op ∈ ops →
      dictFind fd op.name = Option.none →
      dictFind (ops.foldl (DataFlow.autoFlowStep od) fd) op.name
        = some (DataFlow.autoEntry od op) := by
  intro ops
  induction ops with
  | nil => intro fd op _ hmem; cases hmem
  | cons q rest ih =>
    intro fd op hnodup hmem hnone
    have hmap := hnodup
    rw [List.map_cons, List.nodup_cons] at hmap
    obtain ⟨hqnotin, hnodup'⟩ := hmap
    simp only [List.foldl_cons]
    rcases List.mem_cons.mp hmem with heq | hrest
    · subst heq
      have hpres : ∀ r ∈ rest, r.name ≠ op.name := by
        intro r hr heqn
        exact hqnotin (heqn ▸ List.mem_map_of_mem Operation.name hr)
      rw [autoFlowFold_preserve od op.name rest _ hpres]
      show dictFind (DataFlow.autoFlowStep od fd op) op.name = _
      unfold DataFlow.autoFlowStep
      rw [hnone]
      simp only [Option.getD_none]
      rw [dictFind_dictSet_self]
      rfl
    · have hqne : q.name ≠ op.name := by
        intro heqn
        exact hqnotin (heqn ▸ List.mem_map_of_mem Operation.name hrest)
      refine ih _ op hnodup' hrest ?_
      show dictFind (DataFlow.autoFlowStep od fd q) op.name = Option.none
      unfold DataFlow.autoFlowStep
      rw [dictFind_dictSet_ne _ _ _ _ hqne]
      exact hnone

theorem entryFold_preserve (od : List (String × List (String × Operation)))
    (k : String) :
    ∀ (inputs : List (String × Definition)) (fl : InputFlow),
      (∀ i ∈ inputs, i.1 ≠ k) →
      dictFind (inputs.foldl (fun fl inp =>
          dictSet fl inp.1 (DataFlow.portSources od inp)) fl) k
        = dictFind fl k := by
  intro inputs
  induction inputs with
  | nil => intro fl _; rfl
  | cons inp rest ih =>
    intro fl h
    simp only [List.foldl_cons]
    rw [ih _ (fun i hi => h i (List.mem_cons_of_mem _ hi))]
    exact dictFind_dictSet_ne _ _ _ _ (h inp (List.mem_cons_self _ _))

theorem entryFold_find (od : List (String × List (String × Operation))) :
    ∀ (inputs : List (String × Definition)) (fl : InputFlow) (p : String)
      (d : Definition),
      (inputs.map Prod.fst).Nodup → (p, d) ∈ inputs →
      dictFind (inputs.foldl (fun fl inp =>
          dictSet fl inp.1 (DataFlow.portSources od inp)) fl) p
        = some (DataFlow.portSources od (p, d)) := by
  intro inputs
  induction inputs with
  | nil => intro fl p d _ hmem; cases hmem
  | cons inp rest ih =>
    intro fl p d hnodup hmem
    have hmap := hnodup
    rw [List.map_cons, List.nodup_cons] at hmap
    obtain ⟨hnotin, hnodup'⟩ := hmap
    simp only [List.foldl_cons]
    rcases List.mem_cons.mp hmem with heq | hrest
    · have hpres : ∀ i ∈ rest, i.1 ≠ p := by
        intro i hi heq1
        have hmm : i.1 ∈ rest.map Prod.fst := List.mem_map_of_mem Prod.fst hi
        rw [heq1] at hmm
        rw [← heq] at hnotin
        exact hnotin hmm
      rw [entryFold_preserve od p rest _ hpres, ← heq]
      exact dictFind_dictSet_self _ _ _
    · exact ih _ p d hnodup' hrest

/-- Shared characterisation of the auto-wired flow at one input port. -/
theorem autoFlow_port_char (operations : List Operation) (op : Operation)
    (p : String) (d : Definition)
    (hnodup : (operations.map Operation.name).Nodup)
    (hop : op ∈ operations) (hports : (op.inputs.map Prod.fst).Nodup)
    (hmem : (p, d) ∈ op.inputs) :
    dictFind (DataFlow.autoFlow operations) op.name
        = some (DataFlow.autoEntry (DataFlow.autoOutputDict operations) op)
      ∧ dictFind (DataFlow.autoEntry (DataFlow.autoOutputDict operations) op) p
        = some (if producerOps operations d.name = [] then ["seed"]
                else producersFor operations d) := by
  constructor
  · exact autoFlow_find _ operations [] op hnodup hop rfl
  · unfold DataFlow.autoEntry
    rw [entryFold_find _ op.inputs [] p d hports hmem,
      portSources_char operations p d hnodup]

theorem producerOps_eq_nil_iff (operations : List Operation) (dname : String) :
    producerOps operations dname = []
      ↔ operations.any (fun q => q.outputs.any (fun out => out.2.name = dname))
          = false := by
  simp [producerOps, List.filter_eq_nil_iff, List.any_eq_false]

/-! ### Claim C3 -/

/-- Claim C3: auto-wiring assigns to each input port `p` with definition
`d` of each operation the single-element list `["seed"]` when no operation
output carries a definition named `d.name`, and otherwise one
`"<producer>.<output-port>"` entry for every operation output whose
definition equals `d`.  The `Nodup` hypotheses encode that the source
works with Python dicts: operation names are the keys of the built
DataFlow and the port names are dict keys of `inputs`. -/
theorem c3_autowiring_port_assignment (operations : List Operation)
    (op : Operation) (p : String) (d : Definition)
    (hnodup : (operations.map Operation.name).Nodup)
    (hop : op ∈ operations) (hports : (op.inputs.map Prod.fst).Nodup)
    (hmem : (p, d) ∈ op.inputs) :
    ∃ fl, dictFind (DataFlow.auto operations).flow op.name = some fl
      ∧ dictFind fl p
          = some (if operations.any (fun q =>
                    q.outputs.any (fun out => out.2.name = d.name))
                  then producersFor operations d else ["seed"]) := by
  obtain ⟨h1, h2⟩ := autoFlow_port_char operations op p d hnodup hop hports hmem
  refine ⟨DataFlow.autoEntry (DataFlow.autoOutputDict operations) op, h1, ?_⟩
  rw [h2]
  by_cases h : operations.any (fun q => q.outputs.any (fun out => out.2.name = d.name))
  · have hne : ¬producerOps operations d.name = [] := by
      rw [producerOps_eq_nil_iff]
      simp [h]
    simp [h, hne]
  · have heq : producerOps operations d.name = [] := by
      rw [producerOps_eq_nil_iff]
      simpa using h
    simp [h, heq]

def c3prodDef : Definition := { name := "D", primitive := "str" }

def c3opP : Operation := { name := "p", inputs := [], outputs := [("o", c3prodDef)] }

def c3opC : Operation := { name := "c", inputs := [("x", c3prodDef)], outputs := [] }

theorem c3_autowiring_port_assignment_witness :
    ∃ fl, dictFind (DataFlow.auto [c3opP, c3opC]).flow "c" = some fl
      ∧ dictFind fl "x"
          = some (if [c3opP, c3opC].any (fun q =>
                    q.outputs.any (fun out => out.2.name = c3prodDef.name))
                  then producersFor [c3opP, c3opC] c3prodDef else ["seed"]) :=
  c3_autowiring_port_assignment [c3opP, c3opC] c3opC "x" c3prodDef
    (by decide) (by decide) (by decide) (by decide)

/-! ### Claim C6 -/

/-- Lexicographic (character-wise) strict comparison of two strings,
used to state the spec's "lexicographic order of (instance, port)". -/
def charListLt : List Char → List Char → Bool
  | [], [] => false
  | [], _ :: _ => true
  | _ :: _, [] => false
  | a :: as, b :: bs => if a < b then true else if b < a then false else charListLt as bs

def strLexLt (a b : String) : Bool := charListLt a.data b.data

/-- A producer list is in lexicographic order of its
`"<instance>.<port>"` strings. -/
def lexSorted : List String → Bool
  | [] => true
  | [_] => true
  | a :: b :: rest => strLexLt a b && lexSorted (b :: rest)

def c6def : Definition := { name := "D", primitive := "str" }

def c6opZ : Operation := { name := "z", inputs := [], outputs := [("o", c6def)] }

def c6opA : Operation := { name := "a", inputs := [], outputs := [("o", c6def)] }

def c6opC : Operation := { name := "c", inputs := [("x", c6def)], outputs := [] }

/-- Claim C6 counterexample: supplying producers `z` before `a` yields the
producer entries `["z.o", "a.o"]` for the consumer's port, which is not
in lexicographic order of `(instance, port)` — auto-wiring emits
producers in supply order, not sorted order. -/
theorem c6_counterexample :
    dictFind (DataFlow.auto [c6opZ, c6opA, c6opC]).flow "c"
        = some [("x", ["z.o", "a.o"])]
      ∧ strLexLt "a.o" "z.o" = true
      ∧ lexSorted ["z.o", "a.o"] = false := by
  decide

/-- Claim C6 amended: for an input port whose definition has at least one
producer, the producer entries appear in the order the producing
operations were supplied (each producer's matching outputs in declaration
order) — not in lexicographic order; the result depends on the supply
order of the operations. -/
theorem c6_amended_supply_order (operations : List Operation)
    (op : Operation) (p : String) (d : Definition)
    (hnodup : (operations.map Operation.name).Nodup)
    (hop : op ∈ operations) (hports : (op.inputs.map Prod.fst).Nodup)
    (hmem : (p, d) ∈ op.inputs)
    (hprod : operations.any (fun q =>
      q.outputs.any (fun out => out.2.name = d.name)) = true) :
    ∃ fl, dictFind (DataFlow.auto operations).flow op.name = some fl
      ∧ dictFind fl p
          = some ((operations.filter (fun q =>
              q.outputs.any (fun out => out.2.name = d.name))).flatMap
                (fun q => (q.outputs.filter (fun out => out.2 = d)).map
                  (fun out => q.name ++ "." ++ out.1))) := by
  obtain ⟨h1, h2⟩ := autoFlow_port_char operations op p d hnodup hop hports hmem
  refine ⟨DataFlow.autoEntry (DataFlow.autoOutputDict operations) op, h1, ?_⟩
  rw [h2]
  have hne : ¬producerOps operations d.name = [] := by
    rw [producerOps_eq_nil_iff]
    simp [hprod]
  simp only [hne, if_false]
  rfl

theorem c6_amended_supply_order_witness :
    ∃ fl, dictFind (DataFlow.auto [c6opZ, c6opA, c6opC]).flow "c" = some fl
      ∧ dictFind fl "x"
          = some (([c6opZ, c6opA, c6opC].filter (fun q =>
              q.outputs.any (fun out => out.2.name = c6def.name))).flatMap
                (fun q => (q.outputs.filter (fun out => out.2 = c6def)).map
                  (fun out => q.name ++ "." ++ out.1))) :=
  c6_amended_supply_order [c6opZ, c6opA, c6opC] c6opC "x" c6def
    (by decide) (by decide) (by decide) (by decide) (by decide)

/-! ### Round-trip lemmas (claim C1) -/

theorem mapM_map {ε α β γ : Type} (h : α → β) (f : β → Except ε γ) (l : List α) :
    (l.map h).mapM f = l.mapM (fun x => f (h x)) := by
  induction l with
  | nil => rfl
  | cons x xs ih => rw [List.map_cons, List.mapM_cons, List.mapM_cons, ih]

theorem Stage.fromString_value (st : Stage) : Stage.fromString st.value = .ok st := by
  cases st <;> rfl

/-- An operation with no conditions round-trips through its unlinked dict
form, coming back stamped with the supplied instance name. -/
theorem Operation.export_roundtrip_stamped (k : String) (op : Operation)
    (hconds : op.conditions = []) :
    Operation.fromdict k op.export
      = Except.ok { op with instance_name := some k } := by
  have hin : (op.inputs.map (fun kv => (kv.1, DefRef.dict kv.2.export))).mapM
      (fun kv => do
        let d ← DefRef.fromdict kv.2
        pure (kv.1, d))
      = Except.ok op.inputs := by
    rw [mapM_map]
    have := mapM_ok (fun kv : String × Definition => do
        let d ← DefRef.fromdict (DefRef.dict kv.2.export)
        pure (kv.1, d))
      (fun kv => (kv.1, Definition.fromdict kv.2.export)) op.inputs
      (fun kv _ => rfl)
    rw [this]
    congr 1
    have hmap : op.inputs.map (fun kv => (kv.1, Definition.fromdict kv.2.export))
        = op.inputs.map id := by
      apply List.map_congr_left
      intro kv _
      rw [Definition.export_roundtrip]
      rfl
    rw [hmap, List.map_id]
  have hout : (op.outputs.map (fun kv => (kv.1, DefRef.dict kv.2.export))).mapM
      (fun kv => do
        let d ← DefRef.fromdict kv.2
        pure (kv.1, d))
      = Except.ok op.outputs := by
    rw [mapM_map]
    have := mapM_ok (fun kv : String × Definition => do
        let d ← DefRef.fromdict (DefRef.dict kv.2.export)
        pure (kv.1, d))
      (fun kv => (kv.1, Definition.fromdict kv.2.export)) op.outputs
      (fun kv _ => rfl)
    rw [this]
    congr 1
    have hmap : op.outputs.map (fun kv => (kv.1, Definition.fromdict kv.2.export))
        = op.outputs.map id := by
      apply List.map_congr_left
      intro kv _
      rw [Definition.export_roundtrip]
      rfl
    rw [hmap, List.map_id]
  unfold Operation.fromdict Operation.export
  rw [hconds]
  simp only [List.map_nil, List.isEmpty_nil, if_true]
  rw [hin, hout]
  show (do
    let stage ← Stage.fromString op.stage.value
    pure { name := op.name
           inputs := op.inputs
           outputs := op.outputs
           stage := stage
           conditions := (Option.none : Option (List CondEntry)).getD []
           expand := (if op.expand.isEmpty then Option.none else some op.expand).getD []
           instance_name := some k } : Except PyErr Operation) = _
  rw [Stage.fromString_value]
  show Except.ok _ = Except.ok _
  cases hex : op.expand with
  | nil => simp [hconds]
  | cons e es => simp [hconds, hex]

theorem ioDefsOf_stamped (operations : List (String × Operation)) :
    ioDefsOf (operations.map (fun kv =>
        (kv.1, { kv.2 with instance_name := some kv.1 })))
      = ioDefsOf operations := by
  unfold ioDefsOf
  rw [List.flatMap_map]

/-- With no name collisions among the input/output definitions, the
derived definitions table maps each used definition's name back to that
very definition. -/
theorem build_definitions_find (operations : List (String × Operation))
    (seed : Option (List Input)) (configs : Option (List (String × Value)))
    (flow : Option (List (String × InputFlow)))
    (hcoll : ∀ d1 ∈ ioDefsOf operations, ∀ d2 ∈ ioDefsOf operations,
      d1.name = d2.name → d1 = d2)
    (d : Definition) (hd : d ∈ ioDefsOf operations) :
    dictFind (DataFlow.build operations seed configs flow).definitions d.name
      = some d := by
  have hd' : d ∈ ioDefsOf (DataFlow.build operations seed configs flow).operations := by
    show d ∈ ioDefsOf (operations.map _)
    rw [ioDefsOf_stamped]
    exact hd
  cases hfind : dictFind (DataFlow.build operations seed configs flow).definitions
      d.name with
  | none => exact absurd hfind (definitions_find_covers operations seed configs flow d hd')
  | some d' =>
    obtain ⟨hname, hmem⟩ := definitions_find_mem operations seed configs flow d.name d' hfind
    have hmem' : d' ∈ ioDefsOf operations := by
      rw [show ioDefsOf (DataFlow.build operations seed configs flow).operations
          = ioDefsOf operations from ioDefsOf_stamped operations] at hmem
      exact hmem
    rw [hcoll d' hmem' d hd hname]

/-- Resolving the linked export of a conditions-free operation against a
table holding the exported form of every referenced definition recovers
the unlinked export. -/
theorem OperationDict.resolve_linkedExport (defsT : List (String × DefDict))
    (op : Operation) (hconds : op.conditions = [])
    (hio : ∀ d ∈ op.inputs.map Prod.snd ++ op.outputs.map Prod.snd,
      dictFind defsT d.name = some d.export) :
    OperationDict.resolve defsT op.linkedExport = Except.ok op.export := by
  have hc : op.linkedExport.conditions = (Option.none : Option (List CondEntry)) := by
    simp [Operation.linkedExport, Operation.export, hconds]
  have hin : (op.linkedExport.inputs).mapM (fun kv => do
      let r ← DefRef.resolve defsT kv.2
      pure (kv.1, r))
      = Except.ok (op.inputs.map (fun kv => (kv.1, DefRef.dict kv.2.export))) := by
    show (op.inputs.map (fun kv => (kv.1, DefRef.name kv.2.name))).mapM _ = _
    rw [mapM_map]
    refine mapM_ok _ (fun kv => (kv.1, DefRef.dict kv.2.export)) op.inputs ?_
    intro kv hkv
    have hfind := hio kv.2
      (List.mem_append.mpr (Or.inl (List.mem_map_of_mem Prod.snd hkv)))
    show (do
      let r ← DefRef.resolve defsT (DefRef.name kv.2.name)
      pure (kv.1, r) : Except PyErr (String × DefRef)) = _
    simp [DefRef.resolve, hfind]
  have hout : (op.linkedExport.outputs).mapM (fun kv => do
      let r ← DefRef.resolve defsT kv.2
      pure (kv.1, r))
      = Except.ok (op.outputs.map (fun kv => (kv.1, DefRef.dict kv.2.export))) := by
    show (op.outputs.map (fun kv => (kv.1, DefRef.name kv.2.name))).mapM _ = _
    rw [mapM_map]
    refine mapM_ok _ (fun kv => (kv.1, DefRef.dict kv.2.export)) op.outputs ?_
    intro kv hkv
    have hfind := hio kv.2
      (List.mem_append.mpr (Or.inr (List.mem_map_of_mem Prod.snd hkv)))
    show (do
      let r ← DefRef.resolve defsT (DefRef.name kv.2.name)
      pure (kv.1, r) : Except PyErr (String × DefRef)) = _
    simp [DefRef.resolve, hfind]
  unfold OperationDict.resolve
  rw [hc, hin, hout]
  show Except.ok _ = Except.ok _
  simp [Operation.linkedExport, Operation.export, hconds]

/-- Claim C1 amended: for a DataFlow whose operations have no conditions,
whose seed is empty, whose definitions carry no spec and bind each name to
a single definition, `_fromdict(export(linked))` returns an equal DataFlow
for both the linked and the unlinked form.  The exclusions are forced:
seed Inputs come back with fresh uids and no parents
(`c1_counterexample`), condition entries are never converted back to
Definitions by `Operation._fromdict`, a reconstructed `spec` is a fresh
class never equal to the original, and a name collision makes the linked
definitions table collapse distinct definitions. -/
theorem c1_amended_roundtrip (operations : List (String × Operation))
    (seed : Option (List Input)) (configs : Option (List (String × Value)))
    (flow : Option (List (String × InputFlow))) (uids : Nat → String) (b : Bool)
    (hseed : seed.getD [] = [])
    (hconds : ∀ kv ∈ operations, (kv : String × Operation).2.conditions = [])
    (hspec : ∀ d ∈ ioDefsOf operations, d.spec = Option.none)
    (hcoll : ∀ d1 ∈ ioDefsOf operations, ∀ d2 ∈ ioDefsOf operations,
      d1.name = d2.name → d1 = d2) :
    DataFlow.fromdict ((DataFlow.build operations seed configs flow).export b) uids
      = Except.ok (DataFlow.build operations seed configs flow) := by
  have hdfseed : (DataFlow.build operations seed configs flow).seed = [] := hseed
  have hstampconds : ∀ kv ∈ (DataFlow.build operations seed configs flow).operations,
      (kv : String × Operation).2.conditions = [] := by
    intro kv hkv
    have hkv' : kv ∈ operations.map (fun kv =>
        (kv.1, ({ kv.2 with instance_name := some kv.1 } : Operation))) := hkv
    obtain ⟨a, ha, rfl⟩ := List.mem_map.mp hkv'
    exact hconds a ha
  have hopsmapM : ((DataFlow.build operations seed configs flow).operations.map
      (fun kv => (kv.1, kv.2.export))).mapM (fun kv => do
        let op ← Operation.fromdict kv.1 kv.2
        pure (kv.1, op))
      = Except.ok (DataFlow.build operations seed configs flow).operations := by
    rw [mapM_map]
    have hpt : ∀ kv ∈ (DataFlow.build operations seed configs flow).operations,
        (do
          let op ← Operation.fromdict kv.1 kv.2.export
          pure (kv.1, op) : Except PyErr (String × Operation))
          = Except.ok (kv.1, { kv.2 with instance_name := some kv.1 }) := by
      intro kv hkv
      rw [Operation.export_roundtrip_stamped kv.1 kv.2 (hstampconds kv hkv)]
      rfl
    rw [mapM_ok _ (fun kv : String × Operation =>
      (kv.1, ({ kv.2 with instance_name := some kv.1 } : Operation)))
      (DataFlow.build operations seed configs flow).operations hpt]
    congr 1
    show (operations.map (fun kv =>
        (kv.1, ({ kv.2 with instance_name := some kv.1 } : Operation)))).map _
      = operations.map _
    rw [List.map_map]
    rfl
  have hfinal : DataFlow.build (DataFlow.build operations seed configs flow).operations
      (some []) (some (DataFlow.build operations seed configs flow).configs)
      (some (DataFlow.build operations seed configs flow).flow)
      = DataFlow.build operations seed configs flow := by
    have hmm : (operations.map (fun kv =>
        (kv.1, ({ kv.2 with instance_name := some kv.1 } : Operation)))).map
          (fun kv => (kv.1, ({ kv.2 with instance_name := some kv.1 } : Operation)))
        = operations.map (fun kv =>
            (kv.1, ({ kv.2 with instance_name := some kv.1 } : Operation))) := by
      rw [List.map_map]
      rfl
    show DataFlow.build (operations.map _) _ _ _ = _
    unfold DataFlow.build
    rw [hmm, hseed]
    rfl
  cases b with
  | false =>
    have hdd : (DataFlow.build operations seed configs flow).export false
        = { operations := (DataFlow.build operations seed configs flow).operations.map
              (fun kv => (kv.1, kv.2.export))
            seed := []
            configs := (DataFlow.build operations seed configs flow).configs
            flow := (DataFlow.build operations seed configs flow).flow
            linked := false
            definitions := Option.none } := by
      unfold DataFlow.export
      rw [hdfseed]
      rfl
    rw [hdd]
    unfold DataFlow.fromdict
    show (Except.ok ((DataFlow.build operations seed configs flow).operations.map
        (fun kv => (kv.1, kv.2.export))) >>= _) = _
    rw [exceptBind_ok]
    show ((((DataFlow.build operations seed configs flow).operations.map
        (fun kv => (kv.1, kv.2.export))).mapM _) >>= _) = _
    rw [hopsmapM, exceptBind_ok]
    show Except.ok _ = Except.ok _
    rw [show (([] : List InputExport).enum.map (fun nv => Input.fromdict nv.2 (uids nv.1)))
      = [] from rfl]
    rw [hfinal]
  | true =>
    have hkeyed : (DataFlow.build operations seed configs flow).linkedOperations
        = (DataFlow.build operations seed configs flow).operations.map
            (fun kv => (kv.1, kv.2.linkedExport)) := by
      show ((operations.map (fun kv =>
          (kv.1, ({ kv.2 with instance_name := some kv.1 } : Operation)))).map
            (fun kv => (kv.2.instance_name.getD "", kv.2.linkedExport)))
        = ((operations.map (fun kv =>
            (kv.1, ({ kv.2 with instance_name := some kv.1 } : Operation)))).map
              (fun kv => (kv.1, kv.2.linkedExport)))
      rw [List.map_map, List.map_map]
      rfl
    have hdd : (DataFlow.build operations seed configs flow).export true
        = { operations := (DataFlow.build operations seed configs flow).operations.map
              (fun kv => (kv.1, kv.2.linkedExport))
            seed := []
            configs := (DataFlow.build operations seed configs flow).configs
            flow := (DataFlow.build operations seed configs flow).flow
            linked := true
            definitions := some
              ((DataFlow.build operations seed configs flow).definitions.map
                (fun kv => (kv.1, kv.2.export))) } := by
      unfold DataFlow.export
      rw [hdfseed, hkeyed]
      rfl
    have hresolve : DataFlow.resolveOperations
        ((DataFlow.build operations seed configs flow).definitions.map
          (fun kv => (kv.1, kv.2.export)))
        ((DataFlow.build operations seed configs flow).operations.map
          (fun kv => (kv.1, kv.2.linkedExport)))
        = Except.ok ((DataFlow.build operations seed configs flow).operations.map
            (fun kv => (kv.1, kv.2.export))) := by
      unfold DataFlow.resolveOperations
      rw [mapM_map]
      have hpt : ∀ kv ∈ (DataFlow.build operations seed configs flow).operations,
          (do
            let od ← OperationDict.resolve
              ((DataFlow.build operations seed configs flow).definitions.map
                (fun kv => (kv.1, kv.2.export))) kv.2.linkedExport
            pure (kv.1, od) : Except PyErr (String × OperationDict))
            = Except.ok (kv.1, kv.2.export) := by
        intro kv hkv
        have hio : ∀ d ∈ kv.2.inputs.map Prod.snd ++ kv.2.outputs.map Prod.snd,
            dictFind ((DataFlow.build operations seed configs flow).definitions.map
              (fun kv => (kv.1, kv.2.export))) d.name = some d.export := by
          intro d hd
          have hdio : d ∈ ioDefsOf operations := by
            rw [← ioDefsOf_stamped operations]
            exact List.mem_flatMap.mpr ⟨kv, hkv, hd⟩
          rw [dictFind_map Definition.export
            (DataFlow.build operations seed configs flow).definitions d.name]
          rw [build_definitions_find operations seed configs flow hcoll d hdio]
          rfl
        rw [OperationDict.resolve_linkedExport _ kv.2 (hstampconds kv hkv) hio]
        rfl
      rw [mapM_ok _ (fun kv : String × Operation => (kv.1, kv.2.export))
        (DataFlow.build operations seed configs flow).operations hpt]
    rw [hdd]
    unfold DataFlow.fromdict
    simp only [Option.getD_some, hresolve, exceptBind_ok, exceptBind_pure, hopsmapM,
      List.enum_nil, List.map_nil, if_true]
    rw [hfinal]
    rfl

theorem c1_amended_roundtrip_witness :
    DataFlow.fromdict ((DataFlow.build [("f", c1op)] Option.none Option.none
        Option.none).export true) (fun _ => "uid")
      = Except.ok (DataFlow.build [("f", c1op)] Option.none Option.none Option.none) :=
  c1_amended_roundtrip [("f", c1op)] Option.none Option.none Option.none
    (fun _ => "uid") true (by decide) (by decide) (by decide) (by decide)

end DFFML
